import Mathlib

/-!
Verification of the credential-rotation lambda handler (`handler.go`).

The handler is written against two interfaces: a secretsmanager client
(`GetSecretValue`, `PutSecretValue`, `DescribeSecret`,
`UpdateSecretVersionStage`) and a database client (`GenerateSecret`,
`SetSecret`, `TryConnection`).  We embed the store as a list of secret
versions, each carrying an id, staging labels and a secret string, and the
client calls as state transformers over that store.  Every client call is
recorded in a call log, and every call can be made to fail transiently by a
fault schedule, so that properties about partially failed step sequences can
be stated.  The step functions `createSecret`, `setSecret`, `testSecret`,
`finishSecret` and the `router` are translated branch by branch from the Go
source.  The JSON marshalling used by `serialiseSecret` /
`extractSecretObject` is modelled concretely by a JSON value type with a
renderer and a parser, for which a round-trip theorem is proved.
-/

/-- Errors that can be returned by the modelled Go code.  `notFound` models
the store's ResourceNotFoundException, `conflict` a rejected stage move,
`injected` a transient client failure injected by the fault schedule,
`jsonErr` a marshalling error, `genErr` a database-client error and
`errorsNew` an error built by the Go `errors.New`. -/
inductive GoErr where
  | notFound (what : String)
  | conflict (what : String)
  | injected
  | jsonErr (what : String)
  | genErr (what : String)
  | errorsNew (msg : String)
deriving DecidableEq, Repr

/-- One version held by the secret store: its version id, its staging
labels, and its secret string.  The secret string type is a parameter `σ`. -/
structure SVersion (σ : Type) where
  id : String
  stages : List String
  secretString : σ
deriving DecidableEq, Repr

/-- The secret store state for one secret: the list of its versions.
A well-formed store has pairwise distinct version ids. -/
structure Store (σ : Type) where
  versions : List (SVersion σ)
deriving DecidableEq, Repr

/-- Distinct version ids: the store is a map from version id to
(stages, secret string). -/
def Store.wf (st : Store σ) : Prop :=
  (st.versions.map (fun v => v.id)).Nodup

/-- Read the first version carrying the given staging label
(models get-by-stage: `GetSecretValue` with only a `VersionStage`). -/
def Store.getByStage (st : Store σ) (stage : String) : Option (SVersion σ) :=
  st.versions.find? (fun v => v.stages.contains stage)

/-- Read the version with the given id, provided it carries the given
staging label (models `GetSecretValue` with `VersionId` and
`VersionStage`). -/
def Store.getByVersionStage (st : Store σ) (vid stage : String) :
    Option (SVersion σ) :=
  st.versions.find? (fun v => v.id == vid && v.stages.contains stage)

/-- Add a staging label to a label list if not already present. -/
def addStage (stage : String) (l : List String) : List String :=
  if l.contains stage then l else l ++ [stage]

/-- Remove a staging label from a label list. -/
def removeStage (stage : String) (l : List String) : List String :=
  l.filter (fun x => x != stage)

/-- Write the pending version (models `PutSecretValue` with
`ClientRequestToken` and `VersionStages = [AWSPENDING]`): upsert the version
identified by the token with the given secret string and attach
`AWSPENDING` to it, detaching `AWSPENDING` from every other version. -/
def Store.putPending (st : Store σ) (token : String) (content : σ) : Store σ :=
  if st.versions.any (fun v => v.id == token) then
    { versions := st.versions.map (fun v =>
        if v.id == token then
          { v with secretString := content
                   stages := addStage ("AWSPENDING") v.stages }
        else
          { v with stages := removeStage ("AWSPENDING") v.stages }) }
  else
    { versions :=
        st.versions.map (fun v =>
          { v with stages := removeStage ("AWSPENDING") v.stages })
        ++ [{ id := token, stages := [("AWSPENDING")], secretString := content }] }

/-- Atomically move a staging label (models `UpdateSecretVersionStage` with
`MoveToVersionId` and `RemoveFromVersionId`): fails with `notFound` if the
destination version does not exist, and with `conflict` if the source
version does not currently hold the label; otherwise detaches the label
from the source version and attaches it to the destination. -/
def Store.updateStage (st : Store σ) (stage moveTo removeFrom : String) :
    Except GoErr (Store σ) :=
  if st.versions.any (fun v => v.id == moveTo) then
    if st.versions.any (fun v => v.id == removeFrom && v.stages.contains stage) then
      .ok { versions := st.versions.map (fun v =>
        let s1 := if v.id == removeFrom then removeStage stage v.stages else v.stages
        { v with stages := if v.id == moveTo then addStage stage s1 else s1 }) }
    else
      .error (.conflict (removeFrom))
  else
    .error (.notFound (moveTo))

/-- One recorded client call (payloads omitted, identifiers kept). -/
inductive Call where
  | getSecretValue (secretId : String) (versionId : Option String) (stage : String)
  | putSecretValue (secretId token : String)
  | describeSecret (secretId : String)
  | updateSecretVersionStage (secretId moveTo removeFrom : String)
  | generateSecret
deriving DecidableEq, Repr

/-- The state threaded through one handler invocation: the store, the
remaining fault schedule (`true` = the next client call fails
transiently), and the log of client calls made so far (most recent
first). -/
structure MState (σ : Type) where
  store : Store σ
  faults : List Bool
  log : List Call
deriving DecidableEq, Repr

/-- Consume the next entry of the fault schedule (an exhausted schedule
injects no fault). -/
def takeFault (s : MState σ) : Bool × MState σ :=
  match s.faults with
  | [] => (false, s)
  | f :: rest => (f, { s with faults := rest })

/-- Mirrors `GetSecretValueOutput` as used by the handler (only
`SecretString` is read). -/
structure GetSecretValueOutput (σ : Type) where
  secretString : σ
deriving DecidableEq, Repr

/-- Mirrors `DescribeSecretOutput` as used by the handler.  The Go code
extracts the version-to-stages mapping from the response metadata via a
dynamic cast that can fail, hence the `Option`. -/
structure DescribeSecretOutput where
  versionIdsToStages : Option (List (String × List String))
deriving DecidableEq, Repr

/-- Client call `GetSecretValue`. -/
def smGetSecretValue (s : MState σ) (secretId : String)
    (versionId : Option String) (stage : String) :
    Except GoErr (GetSecretValueOutput σ) × MState σ :=
  let (f, s1) := takeFault s
  let s2 := { s1 with log := .getSecretValue secretId versionId stage :: s1.log }
  (if f then .error .injected
   else
     match versionId with
     | none =>
       match s2.store.getByStage stage with
       | some v => .ok { secretString := v.secretString }
       | none => .error (.notFound (stage))
     | some vid =>
       match s2.store.getByVersionStage vid stage with
       | some v => .ok { secretString := v.secretString }
       | none => .error (.notFound (vid ++ ("/") ++ stage)), s2)

/-- Client call `PutSecretValue` (always stage list `[AWSPENDING]`, as in
the handler). -/
def smPutSecretValue (s : MState σ) (secretId token : String) (content : σ) :
    Except GoErr Unit × MState σ :=
  let (f, s1) := takeFault s
  let s2 := { s1 with log := .putSecretValue secretId token :: s1.log }
  if f then (.error .injected, s2)
  else (.ok (), { s2 with store := s2.store.putPending token content })

/-- Client call `DescribeSecret`.  The store-backed client always supplies
the version-to-stages mapping. -/
def smDescribeSecret (s : MState σ) (secretId : String) :
    Except GoErr DescribeSecretOutput × MState σ :=
  let (f, s1) := takeFault s
  let s2 := { s1 with log := .describeSecret secretId :: s1.log }
  (if f then .error .injected
   else .ok { versionIdsToStages :=
                some (s2.store.versions.map (fun v => (v.id, v.stages))) }, s2)

/-- Client call `UpdateSecretVersionStage` moving `AWSCURRENT`. -/
def smUpdateSecretVersionStage (s : MState σ) (secretId moveTo removeFrom : String) :
    Except GoErr Unit × MState σ :=
  let (f, s1) := takeFault s
  let s2 := { s1 with log := .updateSecretVersionStage secretId moveTo removeFrom :: s1.log }
  if f then (.error .injected, s2)
  else
    match s2.store.updateStage ("AWSCURRENT") moveTo removeFrom with
    | .error e => (.error e, s2)
    | .ok st => (.ok (), { s2 with store := st })

/-- Mirrors the Go `SecretsmanagerTriggerPayload` event type. -/
structure SecretsmanagerTriggerPayload where
  secretARN : String
  token : String
  step : String
deriving DecidableEq, Repr

/-- Mirrors the Go `Config`: the database client (`GenerateSecret`) and the
serialisation boundary (`extractSecretObject` / `serialiseSecret`
specialised to the deployment's secret object type `ω`).  The handler only
ever calls these through their interfaces, so they are parameters. -/
structure Config (σ ω : Type) where
  extractObj : σ → Except GoErr ω
  generate : ω → Except GoErr ω
  serialiseObj : ω → Except GoErr σ

/-- Step `createSecret`, translated branch by branch from the Go source:
read `AWSCURRENT`; read `(token, AWSPENDING)` and return success on any
non-error; otherwise deserialise the current envelope, generate new
material, serialise it and write it as the pending version. -/
def createSecret (cfg : Config σ ω) (event : SecretsmanagerTriggerPayload)
    (s : MState σ) : Except GoErr Unit × MState σ :=
  match smGetSecretValue s event.secretARN none ("AWSCURRENT") with
  | (.error e, s1) => (.error e, s1)
  | (.ok v, s1) =>
    match smGetSecretValue s1 event.secretARN (some event.token) ("AWSPENDING") with
    | (.ok _, s2) => (.ok (), s2)
    | (.error _, s2) =>
      match cfg.extractObj v.secretString with
      | .error e => (.error e, s2)
      | .ok obj =>
        let s3 := { s2 with log := .generateSecret :: s2.log }
        match cfg.generate obj with
        | .error e => (.error e, s3)
        | .ok obj2 =>
          match cfg.serialiseObj obj2 with
          | .error e => (.error e, s3)
          | .ok o => smPutSecretValue s3 event.secretARN event.token o

instance : DecidableEq (Except GoErr Unit) := fun a b =>
  match a, b with
  | .ok (), .ok () => isTrue rfl
  | .error e1, .error e2 =>
    if h : e1 = e2 then isTrue (by rw [h])
    else isFalse (by intro hh; cases hh; exact h rfl)
  | .ok (), .error _ => isFalse (by intro h; cases h)
  | .error _, .ok () => isFalse (by intro h; cases h)

/-- The outcome of one routed invocation: a returned Go error-or-nil, or a
runtime panic. -/
inductive StepResult where
  | ret (r : Except GoErr Unit)
  | panicked (msg : String)
deriving DecidableEq, Repr

/-- Step `setSecret`: the Go body is `panic("todo")`. -/
def setSecret (cfg : Config σ ω) (event : SecretsmanagerTriggerPayload)
    (s : MState σ) : StepResult × MState σ :=
  (.panicked ("todo"), s)

/-- Step `testSecret`: the Go body is `panic("implement me")`. -/
def testSecret (cfg : Config σ ω) (event : SecretsmanagerTriggerPayload)
    (s : MState σ) : StepResult × MState σ :=
  (.panicked ("implement me"), s)

/-- The scan of one version's stage list in `finishSecret`'s inner loop:
`.error ()` models the early `return nil` (the version holding
`AWSCURRENT` is the incoming token), `.ok cur` the updated
`currentVersion` accumulator. -/
def scanStagesInner (token cur version : String) : List String → Except Unit String
  | [] => .ok cur
  | stage :: rest =>
    if stage == ("AWSCURRENT") then
      if version == token then .error ()
      else scanStagesInner token version version rest
    else scanStagesInner token cur version rest

/-- The scan of the version-to-stages mapping in `finishSecret`'s outer
loop. -/
def scanVersions (token cur : String) :
    List (String × List String) → Except Unit String
  | [] => .ok cur
  | (version, stages) :: rest =>
    match scanStagesInner token cur version stages with
    | .error () => .error ()
    | .ok cur1 => scanVersions token cur1 rest

/-- Step `finishSecret`, translated from the Go source: describe the
secret, scan the version-to-stages mapping for the version holding
`AWSCURRENT` (returning success early if it is the incoming token), then
move `AWSCURRENT` to the token, removing it from the recorded current
version (the empty string if none was found). -/
def finishSecret (cfg : Config σ ω) (event : SecretsmanagerTriggerPayload)
    (s : MState σ) : Except GoErr Unit × MState σ :=
  match smDescribeSecret s event.secretARN with
  | (.error e, s1) => (.error e, s1)
  | (.ok v, s1) =>
    let scanned : Except Unit String :=
      match v.versionIdsToStages with
      | none => .ok ("")
      | some m => scanVersions event.token ("") m
    match scanned with
    | .error () => (.ok (), s1)
    | .ok currentVersion =>
      smUpdateSecretVersionStage s1 event.secretARN event.token currentVersion

/-- The step router, translated from the Go source: dispatch on the step
name, or return `errors.New("unknown step " + s)` for any other value. -/
def router (cfg : Config σ ω) (event : SecretsmanagerTriggerPayload)
    (s : MState σ) : StepResult × MState σ :=
  if event.step == ("createSecret") then
    let (r, s1) := createSecret cfg event s
    (.ret r, s1)
  else if event.step == ("setSecret") then
    setSecret cfg event s
  else if event.step == ("testSecret") then
    testSecret cfg event s
  else if event.step == ("finishSecret") then
    let (r, s1) := finishSecret cfg event s
    (.ret r, s1)
  else
    (.ret (.error (.errorsNew (("unknown step ") ++ event.step))), s)

/-- Run one routed invocation for its effect on the store, under a given
fault schedule. -/
def runStepStore (cfg : Config σ ω) (event : SecretsmanagerTriggerPayload)
    (faults : List Bool) (st : Store σ) : Store σ :=
  ((router cfg event { store := st, faults := faults, log := [] }).2).store

/-- Run a sequence of invocations (each with its own event and fault
schedule) for their effect on the store. -/
def runSeq (cfg : Config σ ω) (l : List (SecretsmanagerTriggerPayload × List Bool))
    (st : Store σ) : Store σ :=
  l.foldl (fun acc pf => runStepStore cfg pf.1 pf.2 acc) st

/-- Number of versions holding the `AWSCURRENT` staging label. -/
def currentCount (st : Store σ) : Nat :=
  st.versions.countP (fun v => v.stages.contains ("AWSCURRENT"))

/-- JSON values as they occur in the secret envelope wire format: UTF-8
JSON objects with string fields (possibly nested). -/
inductive Json where
  | str (s : String)
  | obj (fields : List (String × Json))

/-- Escape one character for a JSON string literal. -/
def escChar (c : Char) : List Char :=
  if c = '"' ∨ c = '\\' then ['\\', c] else [c]

/-- Escape the characters of a JSON string literal. -/
def escapeChars : List Char → List Char
  | [] => []
  | c :: rest => escChar c ++ escapeChars rest

/-- Render a JSON string literal, quotes included. -/
def renderString (s : String) : List Char :=
  '"' :: (escapeChars s.toList ++ ['"'])

mutual

/-- Render a JSON value (models the output of Go `json.Marshal`). -/
def renderJson : Json → List Char
  | .str s => renderString s
  | .obj fs => '\x7b' :: (renderFields fs ++ ['\x7d'])

/-- Render the comma-separated members of a JSON object. -/
def renderFields : List (String × Json) → List Char
  | [] => []
  | [(k, v)] => renderString k ++ (':' :: renderJson v)
  | (k, v) :: f2 :: rest =>
    renderString k ++ (':' :: (renderJson v ++ (',' :: renderFields (f2 :: rest))))

end

/-- Parse the body of a JSON string literal after the opening quote,
returning the unescaped characters and the input after the closing
quote. -/
def parseStringBody : List Char → Option (List Char × List Char)
  | [] => none
  | c :: rest =>
    if c = '"' then some ([], rest)
    else if c = '\\' then
      match rest with
      | [] => none
      | c2 :: rest2 =>
        match parseStringBody rest2 with
        | some (s, r) => some (c2 :: s, r)
        | none => none
    else
      match parseStringBody rest with
      | some (s, r) => some (c :: s, r)
      | none => none

mutual

/-- Parse one JSON value (fuel-indexed model of Go `json.Unmarshal`'s
grammar, restricted to strings and objects). -/
def parseVal : Nat → List Char → Option (Json × List Char)
  | 0, _ => none
  | _ + 1, [] => none
  | fuel + 1, c :: rest =>
    if c = '"' then
      match parseStringBody rest with
      | some (s, r) => some (.str (String.mk s), r)
      | none => none
    else if c = '\x7b' then
      match rest with
      | [] => none
      | c2 :: rest2 =>
        if c2 = '\x7d' then some (.obj [], rest2)
        else
          match parseMembers fuel rest with
          | some (fs, r) => some (.obj fs, r)
          | none => none
    else none

/-- Parse the members of a JSON object (after the opening brace), the
closing brace included. -/
def parseMembers : Nat → List Char → Option (List (String × Json) × List Char)
  | 0, _ => none
  | _ + 1, [] => none
  | fuel + 1, c :: rest =>
    if c = '"' then
      match parseStringBody rest with
      | some (k, r1) =>
        match r1 with
        | ':' :: r2 =>
          match parseVal fuel r2 with
          | some (v, r3) =>
            match r3 with
            | ',' :: r4 =>
              match parseMembers fuel r4 with
              | some (fs, r5) => some ((String.mk k, v) :: fs, r5)
              | none => none
            | '\x7d' :: r4 => some ([(String.mk k, v)], r4)
            | _ => none
          | none => none
        | _ => none
      | none => none
    else none

end

/-- Parse a complete JSON document (the whole input must be consumed). -/
def parseJsonTop (s : String) : Option Json :=
  match parseVal (s.length + 1) s.toList with
  | some (j, []) => some j
  | _ => none

/-- A Go value passed as the `any`-typed secret object: either a value
that marshals to JSON, or a value that `json.Marshal` rejects (such as a
channel or a function). -/
inductive GoValue where
  | json (j : Json)
  | unsupported (desc : String)

/-- Model of Go `json.Marshal` applied to the secret object, returning the
marshalled bytes. -/
def goJsonMarshal : GoValue → Except GoErr (List Char)
  | .json j => .ok (renderJson j)
  | .unsupported d => .error (.jsonErr (("unsupported type: ") ++ d))

/-- Function `serialiseSecret`, translated from the Go source: marshal the secret,
propagate any error, and cast the resulting byte slice to a string (the Go
code performs the cast with an unsafe pointer conversion; content-wise it
is the bytes-to-string conversion modelled here by `String.mk`). -/
def serialiseSecret (secret : GoValue) : Except GoErr String :=
  match goJsonMarshal secret with
  | .error err => .error err
  | .ok o => .ok (String.mk o)

/-- Function `extractSecretObject`, translated from the Go source: unmarshal the
store output's `SecretString` into the secret object. -/
def extractSecretObject (v : GetSecretValueOutput String) : Except GoErr Json :=
  match parseJsonTop v.secretString with
  | some j => .ok j
  | none => .error (.jsonErr ("invalid JSON"))

/-- Modelled from the spec: the concrete secret envelope type
`SecretUser`.  Its defining Go file is not among the provided sources;
the field set and JSON keys (`dbname`, `user`, `host`, `project_id`,
`branch_id`, `password`) are those of the spec's envelope description and
of the repository's test fixtures. -/
structure SecretUser where
  user : String
  password : String
  host : String
  projectID : String
  branchID : String
  databaseName : String
deriving DecidableEq, Repr

/-- JSON encoding of a `SecretUser` (field order follows the test
fixture). -/
def secretUserToJson (u : SecretUser) : Json :=
  .obj [(("dbname"), .str u.databaseName), (("user"), .str u.user),
        (("host"), .str u.host), (("project_id"), .str u.projectID),
        (("branch_id"), .str u.branchID), (("password"), .str u.password)]

/-- Read one string field of a JSON object the way Go `json.Unmarshal`
does for a string struct field: a missing key leaves the zero value, a
present key must hold a string. -/
def jsonStrField (fs : List (String × Json)) (k : String) : Option String :=
  match fs.lookup k with
  | none => some ("")
  | some (.str s) => some s
  | some _ => none

/-- JSON decoding of a `SecretUser`. -/
def secretUserFromJson : Json → Option SecretUser
  | .obj fs => do
    let d ← jsonStrField fs ("dbname")
    let us ← jsonStrField fs ("user")
    let h ← jsonStrField fs ("host")
    let pr ← jsonStrField fs ("project_id")
    let br ← jsonStrField fs ("branch_id")
    let pw ← jsonStrField fs ("password")
    some { user := us, password := pw, host := h, projectID := pr,
           branchID := br, databaseName := d }
  | _ => none

/-- Function `extractSecretObject` specialised to a deployment whose secret object
is a `*SecretUser` (Go `json.Unmarshal` into the struct). -/
def extractSecretUser (s : String) : Except GoErr SecretUser :=
  match parseJsonTop s with
  | some j =>
    match secretUserFromJson j with
    | some u => .ok u
    | none => .error (.jsonErr ("cannot unmarshal into SecretUser"))
  | none => .error (.jsonErr ("invalid JSON"))

/-- Function `serialiseSecret` specialised to `SecretUser` (marshalling a struct of
string fields always succeeds). -/
def serialiseSecretUser (u : SecretUser) : Except GoErr String :=
  .ok (String.mk (renderJson (secretUserToJson u)))

theorem stringMkToList (s : String) : String.mk s.toList = s := rfl

theorem length_renderString (s : String) :
    (renderString s).length = (escapeChars s.toList).length + 2 := by
  simp [renderString]

theorem parseStringBody_escape (s rest : List Char) :
    parseStringBody (escapeChars s ++ ('"' :: rest)) = some (s, rest) := by
  induction s with
  | nil =>
    show parseStringBody ('"' :: rest) = some ([], rest)
    unfold parseStringBody
    simp
  | cons c t ih =>
    by_cases h : c = '"' ∨ c = '\\'
    · simp only [escapeChars, escChar, if_pos h, List.cons_append, List.append_assoc,
        List.nil_append]
      unfold parseStringBody
      simp [ih]
    · push_neg at h
      simp only [escapeChars, escChar, if_neg (by tauto), List.cons_append,
        List.append_assoc, List.nil_append]
      unfold parseStringBody
      simp [h.1, h.2, ih]

theorem parseVal_render (fuel : Nat) :
    (∀ (j : Json) (rest : List Char), (renderJson j).length < fuel →
        parseVal fuel (renderJson j ++ rest) = some (j, rest)) ∧
    (∀ (fs : List (String × Json)) (rest : List Char), fs ≠ [] →
        (renderFields fs).length < fuel →
        parseMembers fuel (renderFields fs ++ ('\x7d' :: rest)) = some (fs, rest)) := by
  induction fuel with
  | zero =>
    constructor
    · intro j rest h; omega
    · intro fs rest hne h; omega
  | succ fuel ih =>
    constructor
    · intro j rest hlen
      cases j with
      | str s =>
        simp only [renderJson, renderString, List.cons_append, List.append_assoc]
        simp [parseVal, parseStringBody_escape, stringMkToList]
      | obj fs =>
        cases fs with
        | nil =>
          simp only [renderJson, renderFields, List.cons_append, List.nil_append]
          simp [parseVal]
        | cons f t =>
          obtain ⟨k, v⟩ := f
          have hmem := ih.2 ((k, v) :: t) rest (by simp)
            (by simp only [renderJson] at hlen; simp at hlen ⊢; omega)
          cases t with
          | nil =>
            simp only [renderJson, renderFields, renderString, String.toList,
              List.cons_append, List.append_assoc, List.nil_append] at hmem ⊢
            simp [parseVal, hmem]
          | cons f2 t2 =>
            simp only [renderJson, renderFields, renderString, String.toList,
              List.cons_append, List.append_assoc, List.nil_append] at hmem ⊢
            simp [parseVal, hmem]
    · intro fs rest hne hlen
      cases fs with
      | nil => exact absurd rfl hne
      | cons f t =>
        obtain ⟨k, v⟩ := f
        cases t with
        | nil =>
          have hv := ih.1 v ('\x7d' :: rest)
            (by simp only [renderFields] at hlen; simp [length_renderString] at hlen; omega)
          simp only [renderFields, renderString, String.toList, List.cons_append,
            List.append_assoc, List.nil_append]
          simp [parseMembers, parseStringBody_escape, hv, stringMkToList]
        | cons f2 t2 =>
          have hv := ih.1 v (',' :: (renderFields (f2 :: t2) ++ ('\x7d' :: rest)))
            (by simp only [renderFields] at hlen; simp [length_renderString] at hlen; omega)
          have hrest := ih.2 (f2 :: t2) rest (by simp)
            (by simp only [renderFields] at hlen; simp [length_renderString] at hlen; omega)
          simp only [renderFields, renderString, String.toList, List.cons_append,
            List.append_assoc, List.nil_append] at hv hrest ⊢
          simp [parseMembers, parseStringBody_escape, hv, hrest, stringMkToList]

theorem parseJsonTop_render (j : Json) :
    parseJsonTop (String.mk (renderJson j)) = some j := by
  have h := (parseVal_render ((renderJson j).length + 1)).1 j [] (by omega)
  simp only [List.append_nil] at h
  simp only [parseJsonTop]
  have hlen : (String.mk (renderJson j)).length = (renderJson j).length := rfl
  have htl : (String.mk (renderJson j)).toList = renderJson j := rfl
  rw [hlen, htl, h]

theorem secretUser_roundtrip (u : SecretUser) :
    secretUserFromJson (secretUserToJson u) = some u := by
  simp [secretUserFromJson, secretUserToJson, jsonStrField, List.lookup]

theorem extractSecretUser_serialise (u : SecretUser) :
    extractSecretUser (String.mk (renderJson (secretUserToJson u))) = .ok u := by
  simp [extractSecretUser, parseJsonTop_render, secretUser_roundtrip]

theorem countP_ext {p q : α → Bool} (l : List α) (h : ∀ a ∈ l, p a = q a) :
    l.countP p = l.countP q := by
  induction l with
  | nil => rfl
  | cons x t ih =>
    simp only [List.countP_cons, h x (List.mem_cons_self x t),
      ih (fun a ha => h a (List.mem_cons_of_mem x ha))]

theorem two_le_countP {p : α → Bool} {l : List α} {x y : α} (hx : x ∈ l) (hy : y ∈ l)
    (hxy : x ≠ y) (hpx : p x = true) (hpy : p y = true) : 2 ≤ l.countP p := by
  induction l with
  | nil => simp at hx
  | cons a t ih =>
    rw [List.countP_cons]
    rcases List.mem_cons.mp hx with rfl | hx2
    · have hy2 : y ∈ t := by
        rcases List.mem_cons.mp hy with rfl | h
        · exact absurd rfl hxy
        · exact h
      have hpos : 0 < t.countP p := List.countP_pos_iff.mpr ⟨y, hy2, hpy⟩
      rw [if_pos hpx]
      omega
    · rcases List.mem_cons.mp hy with rfl | hy2
      · have hpos : 0 < t.countP p := List.countP_pos_iff.mpr ⟨x, hx2, hpx⟩
        rw [if_pos hpy]
        omega
      · have h2 := ih hx2 hy2
        split <;> omega

theorem contains_addStage (s t : String) (l : List String) (h : s ≠ t) :
    (addStage t l).contains s = l.contains s := by
  unfold addStage; split
  · rfl
  · simp [h]

theorem contains_addStage_self (t : String) (l : List String) :
    (addStage t l).contains t = true := by
  unfold addStage; split
  · simp_all
  · simp

theorem contains_removeStage (s t : String) (l : List String) (h : s ≠ t) :
    (removeStage t l).contains s = l.contains s := by
  simp [removeStage, h]

theorem contains_removeStage_self (t : String) (l : List String) :
    (removeStage t l).contains t = false := by
  simp [removeStage]

theorem currentCount_putPending (st : Store σ) (token : String) (c : σ) :
    currentCount (st.putPending token c) = currentCount st := by
  have hne : ("AWSCURRENT" : String) ≠ ("AWSPENDING") := by decide
  unfold Store.putPending currentCount
  split
  · rw [List.countP_map]
    refine countP_ext _ (fun v hv => ?_)
    by_cases h : (v.id == token) = true
    · simp only [Function.comp, h, if_true, reduceIte]
      exact contains_addStage _ _ _ hne
    · simp only [Function.comp, h, if_false, Bool.false_eq_true, reduceIte]
      exact contains_removeStage _ _ _ hne
  · rw [List.countP_append, List.countP_map]
    have h1 : List.countP (fun v => v.stages.contains ("AWSCURRENT"))
        ([{ id := token, stages := [("AWSPENDING")], secretString := c }] :
          List (SVersion σ)) = 0 := by
      simp [List.countP_cons]
    rw [h1, Nat.add_zero]
    refine countP_ext _ (fun v hv => ?_)
    simp only [Function.comp]
    exact contains_removeStage _ _ _ hne

theorem wf_putPending (st : Store σ) (token : String) (c : σ) (h : st.wf) :
    (st.putPending token c).wf := by
  unfold Store.wf at h ⊢
  unfold Store.putPending
  split
  · rw [List.map_map]
    have heq : st.versions.map ((fun v => v.id) ∘ (fun v =>
        if v.id == token then
          { v with secretString := c, stages := addStage ("AWSPENDING") v.stages }
        else { v with stages := removeStage ("AWSPENDING") v.stages })) =
        st.versions.map (fun v => v.id) := by
      refine List.map_eq_map_iff.mpr (fun v hv => ?_)
      by_cases hh : (v.id == token) = true <;> simp [Function.comp, hh]
    rw [heq]; exact h
  · rename_i hnone
    rw [List.map_append, List.map_map]
    have heq : st.versions.map ((fun v => v.id) ∘ (fun v =>
        { v with stages := removeStage ("AWSPENDING") v.stages })) =
        st.versions.map (fun v => v.id) := by
      refine List.map_eq_map_iff.mpr (fun v hv => ?_)
      simp [Function.comp]
    rw [heq]
    have hnotin : token ∉ st.versions.map (fun v => v.id) := by
      intro hcon
      rw [List.mem_map] at hcon
      obtain ⟨w, hw, hwid⟩ := hcon
      exact hnone (List.any_eq_true.mpr ⟨w, hw, by simp [hwid]⟩)
    simp [List.nodup_append, h, hnotin]

theorem updateStage_ok {σ : Type} {st st' : Store σ} {moveTo removeFrom : String}
    (hwf : st.wf) (hc : currentCount st ≤ 1)
    (h : st.updateStage ("AWSCURRENT") moveTo removeFrom = .ok st') :
    st'.wf ∧ currentCount st' = 1 ∧
      (∀ v ∈ st'.versions, v.stages.contains ("AWSCURRENT") = (v.id == moveTo)) ∧
      st'.versions.map (fun v => v.id) = st.versions.map (fun v => v.id) := by
  unfold Store.updateStage at h
  split at h
  · split at h
    · rename_i hmove hfrom
      injection h with h2
      subst h2
      have hpoint : ∀ v ∈ st.versions,
          ((fun v => v.stages.contains ("AWSCURRENT")) ∘ (fun v =>
            let s1 := if v.id == removeFrom then removeStage ("AWSCURRENT") v.stages
                      else v.stages
            { v with stages := if v.id == moveTo then addStage ("AWSCURRENT") s1 else s1 }
            )) v = (v.id == moveTo) := by
        intro v hv
        by_cases hmv : (v.id == moveTo) = true
        · simp only [Function.comp, hmv, reduceIte]
          exact contains_addStage_self _ _
        · by_cases hrf : (v.id == removeFrom) = true
          · simp only [Function.comp, hmv, hrf, Bool.false_eq_true, reduceIte]
            exact contains_removeStage_self _ _
          · simp only [Function.comp, hmv, hrf, Bool.false_eq_true, reduceIte]
            by_contra hcon
            simp only [Bool.not_eq_false] at hcon
            obtain ⟨w, hw, hwp⟩ := List.any_eq_true.mp hfrom
            have hwid : (w.id == removeFrom) = true := ((Bool.and_eq_true _ _).mp hwp).1
            have hwcur : (w.stages.contains ("AWSCURRENT")) = true :=
              ((Bool.and_eq_true _ _).mp hwp).2
            have hvw : v ≠ w := by
              intro hh
              rw [hh] at hrf
              exact hrf hwid
            have h2 : 2 ≤ st.versions.countP
                (fun v => v.stages.contains ("AWSCURRENT")) :=
              two_le_countP hw hv (by exact fun hh => hvw hh.symm) hwcur hcon
            unfold currentCount at hc
            omega
      have hids : (st.versions.map (fun v =>
          let s1 := if v.id == removeFrom then removeStage ("AWSCURRENT") v.stages
                    else v.stages
          { v with stages := if v.id == moveTo then addStage ("AWSCURRENT") s1 else s1 }
          )).map (fun v => v.id) = st.versions.map (fun v => v.id) := by
        rw [List.map_map]
        refine List.map_eq_map_iff.mpr (fun v hv => ?_)
        simp [Function.comp]
      refine ⟨?_, ?_, ?_, hids⟩
      · unfold Store.wf
        rw [hids]; exact hwf
      · unfold currentCount
        rw [List.countP_map, countP_ext _ hpoint]
        have hle : st.versions.countP (fun v => v.id == moveTo) ≤ 1 := by
          have hcnt : st.versions.countP (fun v => v.id == moveTo) =
              (st.versions.map (fun v => v.id)).count moveTo := by
            rw [List.count_eq_countP, List.countP_map]
            rfl
          rw [hcnt]
          exact List.nodup_iff_count_le_one.mp hwf moveTo
        have hge : 0 < st.versions.countP (fun v => v.id == moveTo) := by
          obtain ⟨w, hw, hwp⟩ := List.any_eq_true.mp hmove
          exact List.countP_pos_iff.mpr ⟨w, hw, hwp⟩
        omega
      · intro v hv
        rw [List.mem_map] at hv
        obtain ⟨w, hw, rfl⟩ := hv
        simpa [Function.comp] using hpoint w hw
    · simp at h
  · simp at h

theorem smGet_store (s : MState σ) (a : String) (b : Option String) (c : String) :
    (smGetSecretValue s a b c).2.store = s.store := by
  rcases s with ⟨st, fs, lg⟩
  cases fs <;> rfl

theorem smDescribe_store (s : MState σ) (a : String) :
    (smDescribeSecret s a).2.store = s.store := by
  rcases s with ⟨st, fs, lg⟩
  cases fs <;> rfl

theorem smPut_store (s : MState σ) (a tok : String) (c : σ) :
    (smPutSecretValue s a tok c).2.store = s.store ∨
    (smPutSecretValue s a tok c).2.store = s.store.putPending tok c := by
  rcases s with ⟨st, fs, lg⟩
  cases fs with
  | nil => right; rfl
  | cons f rest =>
    cases f
    · right; rfl
    · left; rfl

theorem smUpdate_store (s : MState σ) (a mt rf : String) :
    (smUpdateSecretVersionStage s a mt rf).2.store = s.store ∨
    ∃ st', s.store.updateStage ("AWSCURRENT") mt rf = .ok st' ∧
      (smUpdateSecretVersionStage s a mt rf).2.store = st' := by
  rcases s with ⟨st, fs, lg⟩
  have hgo : ∀ (s2 : MState σ), s2.store = st →
      ((match s2.store.updateStage ("AWSCURRENT") mt rf with
        | .error e => (Except.error e, s2)
        | .ok stn => (Except.ok (), { s2 with store := stn })) :
          Except GoErr Unit × MState σ).2.store = st ∨
      ∃ st', st.updateStage ("AWSCURRENT") mt rf = .ok st' ∧
        ((match s2.store.updateStage ("AWSCURRENT") mt rf with
          | .error e => (Except.error e, s2)
          | .ok stn => (Except.ok (), { s2 with store := stn })) :
            Except GoErr Unit × MState σ).2.store = st' := by
    intro s2 hs2
    rcases hvv : s2.store.updateStage ("AWSCURRENT") mt rf with e | stn
    · left; simp [hvv, hs2]
    · right; exact ⟨stn, by rw [← hs2]; exact hvv, by simp [hvv]⟩
  cases fs with
  | nil => exact hgo _ rfl
  | cons f rest =>
    cases f
    · exact hgo _ rfl
    · left; rfl

theorem createSecret_store (cfg : Config σ ω) (ev : SecretsmanagerTriggerPayload)
    (s : MState σ) :
    (createSecret cfg ev s).2.store = s.store ∨
    ∃ c, (createSecret cfg ev s).2.store = s.store.putPending ev.token c := by
  unfold createSecret
  split
  · rename_i e s1 heq
    have h1 := smGet_store s ev.secretARN none ("AWSCURRENT")
    rw [heq] at h1
    left; simpa using h1
  · rename_i v s1 heq
    have h1 := smGet_store s ev.secretARN none ("AWSCURRENT")
    rw [heq] at h1
    simp only at h1
    split
    · rename_i a s2 heq2
      have h2 := smGet_store s1 ev.secretARN (some ev.token) ("AWSPENDING")
      rw [heq2] at h2
      simp only at h2
      left; simp only; rw [h2, h1]
    · rename_i a s2 heq2
      have h2 := smGet_store s1 ev.secretARN (some ev.token) ("AWSPENDING")
      rw [heq2] at h2
      simp only at h2
      have h12 : s2.store = s.store := by rw [h2, h1]
      split
      · left; simpa using h12
      · rename_i obj heq3
        dsimp only
        split
        · left; simpa using h12
        · rename_i obj2 heq4
          split
          · left; simpa using h12
          · rename_i o heq5
            have hput := smPut_store { s2 with log := .generateSecret :: s2.log }
              ev.secretARN ev.token o
            simp only at hput
            rcases hput with hl | hr
            · left; rw [hl, h12]
            · right; exact ⟨o, by rw [hr, h12]⟩

theorem finishSecret_store (cfg : Config σ ω) (ev : SecretsmanagerTriggerPayload)
    (s : MState σ) :
    (finishSecret cfg ev s).2.store = s.store ∨
    ∃ rf st', s.store.updateStage ("AWSCURRENT") ev.token rf = .ok st' ∧
      (finishSecret cfg ev s).2.store = st' := by
  unfold finishSecret
  rcases hd : smDescribeSecret s ev.secretARN with ⟨r1, t1⟩
  have ht1 : t1.store = s.store := by
    have hh := smDescribe_store s ev.secretARN
    rw [hd] at hh; exact hh
  cases r1 with
  | error e => left; simpa using ht1
  | ok v =>
    rcases hscan : (match v.versionIdsToStages with
        | none => Except.ok ("")
        | some m => scanVersions ev.token ("") m : Except Unit String) with u | cur
    · cases u; left; simp [hscan]; exact ht1
    · have hupd := smUpdate_store t1 ev.secretARN ev.token cur
      rcases hupd with hl | ⟨st', hok, hst⟩
      · left; simp [hscan]; rw [hl]; exact ht1
      · right
        refine ⟨cur, st', by rw [← ht1]; exact hok, ?_⟩
        simp [hscan]; exact hst

theorem router_store_cases (cfg : Config σ ω) (ev : SecretsmanagerTriggerPayload)
    (s : MState σ) :
    (router cfg ev s).2.store = s.store ∨
    (∃ c, (router cfg ev s).2.store = s.store.putPending ev.token c) ∨
    (∃ rf st', s.store.updateStage ("AWSCURRENT") ev.token rf = .ok st' ∧
       (router cfg ev s).2.store = st') := by
  unfold router
  split
  · rcases hcs : createSecret cfg ev s with ⟨r, s1⟩
    have h := createSecret_store cfg ev s
    rw [hcs] at h
    rcases h with h | ⟨c, h⟩
    · left; simpa using h
    · right; left; exact ⟨c, by simpa using h⟩
  · split
    · left; rfl
    · split
      · left; rfl
      · split
        · rcases hfs : finishSecret cfg ev s with ⟨r, s1⟩
          have h := finishSecret_store cfg ev s
          rw [hfs] at h
          rcases h with h | ⟨rf, st', hok, h⟩
          · left; simpa using h
          · right; right; exact ⟨rf, st', hok, by simpa using h⟩
        · left; rfl

theorem runStepStore_inv (cfg : Config σ ω) (ev : SecretsmanagerTriggerPayload)
    (fs : List Bool) (st : Store σ) (hwf : st.wf) (hc : currentCount st ≤ 1) :
    (runStepStore cfg ev fs st).wf ∧ currentCount (runStepStore cfg ev fs st) ≤ 1 ∧
      (1 ≤ currentCount st → 1 ≤ currentCount (runStepStore cfg ev fs st)) := by
  unfold runStepStore
  rcases router_store_cases cfg ev ⟨st, fs, []⟩ with h | ⟨c, h⟩ | ⟨rf, st', hok, h⟩
  · rw [h]; exact ⟨hwf, hc, fun hh => hh⟩
  · rw [h]
    refine ⟨wf_putPending _ _ _ hwf, ?_, ?_⟩
    · rw [currentCount_putPending]; exact hc
    · rw [currentCount_putPending]; exact fun hh => hh
  · rw [h]
    obtain ⟨hwf', hcc, _, _⟩ := updateStage_ok hwf hc hok
    exact ⟨hwf', by omega, fun _ => by omega⟩

theorem runSeq_inv (cfg : Config σ ω)
    (l : List (SecretsmanagerTriggerPayload × List Bool)) (st : Store σ)
    (hwf : st.wf) (hc : currentCount st ≤ 1) :
    (runSeq cfg l st).wf ∧ currentCount (runSeq cfg l st) ≤ 1 ∧
      (1 ≤ currentCount st → 1 ≤ currentCount (runSeq cfg l st)) := by
  induction l generalizing st with
  | nil => exact ⟨hwf, hc, fun hh => hh⟩
  | cons p t ih =>
    obtain ⟨w1, c1, g1⟩ := runStepStore_inv cfg p.1 p.2 st hwf hc
    obtain ⟨w2, c2, g2⟩ := ih (runStepStore cfg p.1 p.2 st) w1 c1
    refine ⟨?_, ?_, ?_⟩
    · simpa [runSeq, List.foldl_cons] using w2
    · simpa [runSeq, List.foldl_cons] using c2
    · intro hh
      have := g2 (g1 hh)
      simpa [runSeq, List.foldl_cons] using this

theorem scanStagesInner_self (token cur : String) (ss : List String)
    (h : ("AWSCURRENT") ∈ ss) :
    scanStagesInner token cur token ss = .error () := by
  induction ss generalizing cur with
  | nil => simp at h
  | cons a t ih =>
    unfold scanStagesInner
    by_cases ha : a = ("AWSCURRENT")
    · simp [ha]
    · have ht : ("AWSCURRENT") ∈ t := by
        rcases List.mem_cons.mp h with hh | hh
        · exact absurd hh.symm ha
        · exact hh
      simp only [beq_iff_eq, ha, reduceIte]
      exact ih cur ht

theorem scanStagesInner_noCurrent (token cur version : String) (ss : List String)
    (h : ("AWSCURRENT") ∉ ss) :
    scanStagesInner token cur version ss = .ok cur := by
  induction ss with
  | nil => rfl
  | cons a t ih =>
    unfold scanStagesInner
    have ha : a ≠ ("AWSCURRENT") := fun hh => h (by simp [hh])
    have ht : ("AWSCURRENT") ∉ t := fun hh => h (by simp [hh])
    simp only [beq_iff_eq, ha, reduceIte]
    exact ih ht

theorem scanStagesInner_other (token cur version : String) (ss : List String)
    (hv : version ≠ token) :
    scanStagesInner token cur version ss =
      .ok (if ("AWSCURRENT") ∈ ss then version else cur) := by
  induction ss generalizing cur with
  | nil => simp [scanStagesInner]
  | cons a t ih =>
    unfold scanStagesInner
    by_cases ha : a = ("AWSCURRENT")
    · subst ha
      have hvt : (version == token) = false := by simp [hv]
      simp only [beq_self_eq_true, reduceIte, hvt, Bool.false_eq_true]
      rw [ih]
      simp
    · simp only [beq_iff_eq, ha, reduceIte]
      rw [ih]
      have hne : ("AWSCURRENT") ≠ a := fun hh => ha hh.symm
      simp [List.mem_cons, hne]

theorem scanVersions_token_current (token cur : String)
    (m : List (String × List String)) (ss : List String)
    (hmem : (token, ss) ∈ m) (hcur : ("AWSCURRENT") ∈ ss) :
    scanVersions token cur m = .error () := by
  induction m generalizing cur with
  | nil => simp at hmem
  | cons p t ih =>
    obtain ⟨vid, stages⟩ := p
    unfold scanVersions
    rcases List.mem_cons.mp hmem with heq | hmem2
    · injection heq with h1 h2
      subst h1; subst h2
      rw [scanStagesInner_self token cur ss hcur]
    · cases hsi : scanStagesInner token cur vid stages with
      | error u => cases u; rfl
      | ok cur1 =>
        simp only []
        exact ih cur1 hmem2

theorem scanVersions_noCurrent (token cur : String) (m : List (String × List String))
    (h : ∀ p ∈ m, ("AWSCURRENT") ∉ p.2) :
    scanVersions token cur m = .ok cur := by
  induction m generalizing cur with
  | nil => rfl
  | cons p t ih =>
    obtain ⟨vid, stages⟩ := p
    unfold scanVersions
    rw [scanStagesInner_noCurrent token cur vid stages (h (vid, stages) (by simp))]
    exact ih cur (fun q hq => h q (by simp [hq]))

theorem scanVersions_unique (token old cur : String) (m : List (String × List String))
    (hne : old ≠ token)
    (hall : ∀ p ∈ m, ("AWSCURRENT") ∈ p.2 → p.1 = old)
    (hex : ∃ p ∈ m, ("AWSCURRENT") ∈ p.2) :
    scanVersions token cur m = .ok old := by
  induction m generalizing cur with
  | nil =>
    obtain ⟨p, hp, _⟩ := hex
    simp at hp
  | cons p t ih =>
    obtain ⟨vid, ss⟩ := p
    unfold scanVersions
    by_cases hcur : ("AWSCURRENT") ∈ ss
    · have hvid : vid = old := hall (vid, ss) (by simp) hcur
      subst hvid
      rw [scanStagesInner_other token cur vid ss hne]
      simp only [hcur, reduceIte]
      by_cases hext : ∃ q ∈ t, ("AWSCURRENT") ∈ q.2
      · exact ih vid (fun q hq hcq => hall q (by simp [hq]) hcq) hext
      · push_neg at hext
        exact scanVersions_noCurrent token vid t hext
    · rw [scanStagesInner_noCurrent token cur vid ss hcur]
      have hex2 : ∃ q ∈ t, ("AWSCURRENT") ∈ q.2 := by
        obtain ⟨q, hq, hcq⟩ := hex
        rcases List.mem_cons.mp hq with rfl | hq2
        · exact absurd hcq hcur
        · exact ⟨q, hq2, hcq⟩
      exact ih cur (fun q hq hcq => hall q (by simp [hq]) hcq) hex2

theorem getByStage_putPending_some (st : Store σ) (tok : String) (c : σ)
    (h : (st.getByStage ("AWSCURRENT")).isSome = true) :
    ((st.putPending tok c).getByStage ("AWSCURRENT")).isSome = true := by
  have hne : ("AWSCURRENT" : String) ≠ ("AWSPENDING") := by decide
  rw [Store.getByStage, List.find?_isSome] at h
  obtain ⟨v, hv, hp⟩ := h
  rw [Store.getByStage, List.find?_isSome]
  unfold Store.putPending
  split
  · refine ⟨_, List.mem_map_of_mem _ hv, ?_⟩
    by_cases hid : (v.id == tok) = true
    · simp only [hid, reduceIte]
      rw [contains_addStage _ _ _ hne]
      exact hp
    · simp only [hid, Bool.false_eq_true, reduceIte]
      rw [contains_removeStage _ _ _ hne]
      exact hp
  · refine ⟨_, List.mem_append_left _ (List.mem_map_of_mem _ hv), ?_⟩
    rw [contains_removeStage _ _ _ hne]
    exact hp

theorem mem_addStage_self (t : String) (l : List String) : t ∈ addStage t l := by
  unfold addStage
  split
  · rename_i hh
    exact List.elem_iff.mp hh
  · simp

theorem find?_putPendingList_any {σ : Type} (tok : String) (c : σ)
    (l : List (SVersion σ)) (hany : l.any (fun v => v.id == tok) = true) :
    ∃ w, (l.map (fun v =>
        if v.id == tok then
          { v with secretString := c, stages := addStage ("AWSPENDING") v.stages }
        else { v with stages := removeStage ("AWSPENDING") v.stages })).find?
          (fun v => v.id == tok && v.stages.contains ("AWSPENDING")) = some w ∧
      w.id = tok ∧ w.secretString = c := by
  induction l with
  | nil => simp at hany
  | cons v t ih =>
    rw [List.map_cons]
    by_cases hid : (v.id == tok) = true
    · simp only [hid, reduceIte]
      rw [List.find?_cons_of_pos _ (by simp [hid, mem_addStage_self])]
      exact ⟨_, rfl, by simpa using hid, rfl⟩
    · rw [List.find?_cons_of_neg _ (by simp [hid])]
      apply ih
      rcases List.any_eq_true.mp hany with ⟨w, hw, hwp⟩
      rcases List.mem_cons.mp hw with rfl | hw2
      · exact absurd hwp hid
      · exact List.any_eq_true.mpr ⟨w, hw2, hwp⟩

theorem find?_putPendingList_none {σ : Type} (tok : String) (c : σ)
    (l : List (SVersion σ)) (hnone : l.any (fun v => v.id == tok) = false) :
    (l.map (fun (v : SVersion σ) =>
        { v with stages := removeStage ("AWSPENDING") v.stages })
      ++ [({ id := tok, stages := [("AWSPENDING")], secretString := c } : SVersion σ)]).find?
        (fun (v : SVersion σ) => v.id == tok && v.stages.contains ("AWSPENDING"))
      = some { id := tok, stages := [("AWSPENDING")], secretString := c } := by
  induction l with
  | nil =>
    rw [List.map_nil, List.nil_append]
    exact List.find?_cons_of_pos _ (by simp)
  | cons v t ih =>
    rw [List.any_cons, Bool.or_eq_false_iff] at hnone
    rw [List.map_cons, List.cons_append]
    rw [List.find?_cons_of_neg _ (by simp [hnone.1])]
    exact ih hnone.2

theorem getByVersionStage_putPending (st : Store σ) (tok : String) (c : σ) :
    ∃ w, (st.putPending tok c).getByVersionStage tok ("AWSPENDING") = some w ∧
      w.id = tok ∧ w.secretString = c := by
  unfold Store.putPending Store.getByVersionStage
  split
  · exact find?_putPendingList_any tok c st.versions ‹_›
  · rename_i h
    exact ⟨_, find?_putPendingList_none tok c st.versions (by simpa using h), rfl, rfl⟩

theorem finishSecret_guard (cfg : Config σ ω) (ev : SecretsmanagerTriggerPayload)
    (st : Store σ) (lg : List Call) (v : SVersion σ)
    (hv : v ∈ st.versions) (hvid : v.id = ev.token)
    (hcur : ("AWSCURRENT") ∈ v.stages) :
    finishSecret cfg ev ⟨st, [], lg⟩ =
      (.ok (), ⟨st, [], .describeSecret ev.secretARN :: lg⟩) := by
  have hmem : (ev.token, v.stages) ∈ st.versions.map (fun w => (w.id, w.stages)) :=
    List.mem_map.mpr ⟨v, hv, by rw [hvid]⟩
  have hscan := scanVersions_token_current ev.token ("") _ v.stages hmem hcur
  unfold finishSecret
  simp [smDescribeSecret, takeFault, hscan]

theorem createSecret_guard (cfg : Config σ ω) (ev : SecretsmanagerTriggerPayload)
    (st : Store σ) (lg : List Call)
    (hcv : (st.getByStage ("AWSCURRENT")).isSome = true)
    (hpend : (st.getByVersionStage ev.token ("AWSPENDING")).isSome = true) :
    createSecret cfg ev ⟨st, [], lg⟩ =
      (.ok (), ⟨st, [],
        .getSecretValue ev.secretARN (some ev.token) ("AWSPENDING") ::
        .getSecretValue ev.secretARN none ("AWSCURRENT") :: lg⟩) := by
  obtain ⟨cv, hcv2⟩ := Option.isSome_iff_exists.mp hcv
  obtain ⟨pv, hpend2⟩ := Option.isSome_iff_exists.mp hpend
  unfold createSecret
  simp [smGetSecretValue, takeFault, hcv2, hpend2]

theorem createSecret_write (cfg : Config σ ω) (ev : SecretsmanagerTriggerPayload)
    (st : Store σ) (lg : List Call) (cv : SVersion σ) (e e2 : ω) (c : σ)
    (hcv : st.getByStage ("AWSCURRENT") = some cv)
    (hpend : st.getByVersionStage ev.token ("AWSPENDING") = none)
    (hex : cfg.extractObj cv.secretString = .ok e)
    (hgen : cfg.generate e = .ok e2)
    (hser : cfg.serialiseObj e2 = .ok c) :
    createSecret cfg ev ⟨st, [], lg⟩ =
      (.ok (), ⟨st.putPending ev.token c, [],
        .putSecretValue ev.secretARN ev.token :: .generateSecret ::
        .getSecretValue ev.secretARN (some ev.token) ("AWSPENDING") ::
        .getSecretValue ev.secretARN none ("AWSCURRENT") :: lg⟩) := by
  unfold createSecret
  simp [smGetSecretValue, smPutSecretValue, takeFault, hcv, hpend, hex, hgen, hser]

theorem finishSecret_noCurrent (cfg : Config σ ω) (ev : SecretsmanagerTriggerPayload)
    (st : Store σ) (lg : List Call)
    (h : ∀ v ∈ st.versions, ("AWSCURRENT") ∉ v.stages) :
    finishSecret cfg ev ⟨st, [], lg⟩ =
      smUpdateSecretVersionStage ⟨st, [], .describeSecret ev.secretARN :: lg⟩
        ev.secretARN ev.token ("") := by
  have hscan := scanVersions_noCurrent ev.token ("")
    (st.versions.map fun w => (w.id, w.stages))
    (fun p hp => by
      obtain ⟨w, hw, rfl⟩ := List.mem_map.mp hp
      exact h w hw)
  unfold finishSecret
  simp [smDescribeSecret, takeFault, hscan]

/-- A concrete deployment configuration used in witnesses: the secret
string and the secret object are both plain strings; generation appends a
character, so generated material always differs. -/
def cfgW : Config String String :=
  { extractObj := fun s => .ok s
    generate := fun s => .ok (s ++ ("!"))
    serialiseObj := fun s => .ok s }

/-- A concrete store used in witnesses: one version `v0` holding
`AWSCURRENT`. -/
def storeW : Store String := ⟨[⟨("v0"), [("AWSCURRENT")], ("c0")⟩]⟩

/-- A concrete store used in witnesses: current version `v0` and pending
version `T1`. -/
def storeWP : Store String :=
  ⟨[⟨("v0"), [("AWSCURRENT")], ("c0")⟩, ⟨("T1"), [("AWSPENDING")], ("c1")⟩]⟩

/-- A concrete store used in witnesses and counterexamples: a pending
version `T1` and no version holding `AWSCURRENT`. -/
def storeWNoCur : Store String := ⟨[⟨("T1"), [("AWSPENDING")], ("c1")⟩]⟩

/-- C6: the specification's contract for the setSecret step (read the
`AWSPENDING` envelope for the token and apply it through the Target
Resource Port) is not implemented: the Go body is `panic("todo")`.  On
every invocation the step panics and performs no store read and no
database call, leaving the invocation state untouched. -/
theorem setSecret_panics (cfg : Config σ ω) (ev : SecretsmanagerTriggerPayload)
    (s : MState σ) : setSecret cfg ev s = (.panicked ("todo"), s) := rfl

/-- C7: the specification's contract for the testSecret step (read the
`AWSPENDING` envelope and verify it with `tryConnection`) is not
implemented: the Go body is `panic("implement me")`.  On every invocation
the step panics and performs no store read and no database call, leaving
the invocation state untouched. -/
theorem testSecret_panics (cfg : Config σ ω) (ev : SecretsmanagerTriggerPayload)
    (s : MState σ) : testSecret cfg ev s = (.panicked ("implement me"), s) := rfl

/-- C8: the Step Router dispatches the four recognized step names to the
matching step functions, and for every other step string it fails with an
error whose message carries the offending string, performing no store or
resource call itself (the state is returned untouched). -/
theorem router_dispatch (cfg : Config σ ω) (arn tok stp : String) (s : MState σ) :
    router cfg ⟨arn, tok, ("createSecret")⟩ s =
      (.ret (createSecret cfg ⟨arn, tok, ("createSecret")⟩ s).1,
       (createSecret cfg ⟨arn, tok, ("createSecret")⟩ s).2) ∧
    router cfg ⟨arn, tok, ("setSecret")⟩ s = (.panicked ("todo"), s) ∧
    router cfg ⟨arn, tok, ("testSecret")⟩ s = (.panicked ("implement me"), s) ∧
    router cfg ⟨arn, tok, ("finishSecret")⟩ s =
      (.ret (finishSecret cfg ⟨arn, tok, ("finishSecret")⟩ s).1,
       (finishSecret cfg ⟨arn, tok, ("finishSecret")⟩ s).2) ∧
    (stp ≠ ("createSecret") → stp ≠ ("setSecret") → stp ≠ ("testSecret") →
     stp ≠ ("finishSecret") →
     router cfg ⟨arn, tok, stp⟩ s =
       (.ret (.error (.errorsNew (("unknown step ") ++ stp))), s)) := by
  refine ⟨?_, ?_, ?_, ?_, ?_⟩
  · rcases h : createSecret cfg ⟨arn, tok, ("createSecret")⟩ s with ⟨r, s1⟩
    unfold router
    simp [h]
  · rfl
  · rfl
  · rcases h : finishSecret cfg ⟨arn, tok, ("finishSecret")⟩ s with ⟨r, s1⟩
    unfold router
    simp [h]
  · intro h1 h2 h3 h4
    unfold router
    simp [h1, h2, h3, h4]

theorem router_dispatch_witness :
    router cfgW ⟨("arn"), ("T1"), ("rotateSecret")⟩ ⟨storeW, [], []⟩ =
      (.ret (.error (.errorsNew (("unknown step ") ++ ("rotateSecret")))),
       ⟨storeW, [], []⟩) :=
  (router_dispatch cfgW ("arn") ("T1") ("rotateSecret") ⟨storeW, [], []⟩).2.2.2.2
    (by decide) (by decide) (by decide) (by decide)

/-- C1: never-zero-current invariant: starting from a well-formed store in
which at most one version holds `AWSCURRENT`, after any sequence of routed
step invocations (with arbitrary per-call transient-fault schedules,
covering partially failed and retried steps) at most one version holds
`AWSCURRENT`, and if some version held it before the sequence then some
version still holds it after. -/
theorem never_zero_current (cfg : Config σ ω)
    (l : List (SecretsmanagerTriggerPayload × List Bool)) (st : Store σ)
    (hwf : st.wf) (hc : currentCount st ≤ 1) :
    currentCount (runSeq cfg l st) ≤ 1 ∧
      (1 ≤ currentCount st → 1 ≤ currentCount (runSeq cfg l st)) := by
  obtain ⟨_, h1, h2⟩ := runSeq_inv cfg l st hwf hc
  exact ⟨h1, h2⟩

theorem never_zero_current_witness :
    currentCount (runSeq cfgW
      [(⟨("arn"), ("T1"), ("createSecret")⟩, []),
       (⟨("arn"), ("T1"), ("finishSecret")⟩, [true]),
       (⟨("arn"), ("T1"), ("setSecret")⟩, []),
       (⟨("arn"), ("T1"), ("finishSecret")⟩, []),
       (⟨("arn"), ("T1"), ("rotateSecret")⟩, []),
       (⟨("arn"), ("T1"), ("finishSecret")⟩, [])] storeW) ≤ 1 ∧
      (1 ≤ currentCount storeW → 1 ≤ currentCount (runSeq cfgW
      [(⟨("arn"), ("T1"), ("createSecret")⟩, []),
       (⟨("arn"), ("T1"), ("finishSecret")⟩, [true]),
       (⟨("arn"), ("T1"), ("setSecret")⟩, []),
       (⟨("arn"), ("T1"), ("finishSecret")⟩, []),
       (⟨("arn"), ("T1"), ("rotateSecret")⟩, []),
       (⟨("arn"), ("T1"), ("finishSecret")⟩, [])] storeW)) :=
  never_zero_current cfgW
    [(⟨("arn"), ("T1"), ("createSecret")⟩, []),
     (⟨("arn"), ("T1"), ("finishSecret")⟩, [true]),
     (⟨("arn"), ("T1"), ("setSecret")⟩, []),
     (⟨("arn"), ("T1"), ("finishSecret")⟩, []),
     (⟨("arn"), ("T1"), ("rotateSecret")⟩, []),
     (⟨("arn"), ("T1"), ("finishSecret")⟩, [])] storeW
    (by unfold Store.wf; decide) (by decide)

/-- C9: defensive edge of finishSecret: when the describe result contains no
version holding `AWSCURRENT`, finishSecret does not return a silent
success; it still calls `UpdateSecretVersionStage` with the from-version
empty and returns exactly what the store client returns for that call (the
call is recorded in the log with an empty remove-from version id). -/
theorem finishSecret_defensive (cfg : Config σ ω)
    (ev : SecretsmanagerTriggerPayload) (st : Store σ) (lg : List Call)
    (h : ∀ v ∈ st.versions, ("AWSCURRENT") ∉ v.stages) :
    finishSecret cfg ev ⟨st, [], lg⟩ =
      smUpdateSecretVersionStage ⟨st, [], .describeSecret ev.secretARN :: lg⟩
        ev.secretARN ev.token ("") ∧
    (finishSecret cfg ev ⟨st, [], lg⟩).2.log =
      .updateSecretVersionStage ev.secretARN ev.token ("") ::
      .describeSecret ev.secretARN :: lg := by
  have heq := finishSecret_noCurrent cfg ev st lg h
  refine ⟨heq, ?_⟩
  rw [heq]
  rcases hvv : Store.updateStage st ("AWSCURRENT") ev.token ("") with e | stn <;>
    simp [smUpdateSecretVersionStage, takeFault, hvv]

theorem finishSecret_defensive_witness :
    finishSecret cfgW ⟨("arn"), ("T1"), ("finishSecret")⟩ ⟨storeWNoCur, [], []⟩ =
      smUpdateSecretVersionStage
        ⟨storeWNoCur, [], [.describeSecret ("arn")]⟩ ("arn") ("T1") ("") ∧
    (finishSecret cfgW ⟨("arn"), ("T1"), ("finishSecret")⟩ ⟨storeWNoCur, [], []⟩).2.log =
      [.updateSecretVersionStage ("arn") ("T1") (""), .describeSecret ("arn")] :=
  finishSecret_defensive cfgW ⟨("arn"), ("T1"), ("finishSecret")⟩ storeWNoCur []
    (by decide)

/-- C2: idempotency of finishSecret: when the version holding `AWSCURRENT`
is the incoming token, finishSecret returns success immediately, leaves the
store (hence every staging label) unchanged and makes no
`UpdateSecretVersionStage` (promote) call — the log gains only the
describe call; consequently, running finishSecret once to promote the
token and then a second time returns success both times, with the store
unchanged by the second call. -/
theorem finishSecret_idempotency (cfg : Config σ ω)
    (ev : SecretsmanagerTriggerPayload) (st : Store σ) (lg : List Call) :
    (∀ v ∈ st.versions, v.id = ev.token → ("AWSCURRENT") ∈ v.stages →
       finishSecret cfg ev ⟨st, [], lg⟩ =
         (.ok (), ⟨st, [], .describeSecret ev.secretARN :: lg⟩)) ∧
    (st.wf →
     ∀ old ∈ st.versions, ("AWSCURRENT") ∈ old.stages → old.id ≠ ev.token →
       (∀ w ∈ st.versions, ("AWSCURRENT") ∈ w.stages → w.id = old.id) →
       (∃ tv ∈ st.versions, tv.id = ev.token) →
       (finishSecret cfg ev ⟨st, [], lg⟩).1 = .ok () ∧
       (finishSecret cfg ev (finishSecret cfg ev ⟨st, [], lg⟩).2).1 = .ok () ∧
       (finishSecret cfg ev (finishSecret cfg ev ⟨st, [], lg⟩).2).2.store =
         (finishSecret cfg ev ⟨st, [], lg⟩).2.store) := by
  constructor
  · intro v hv hvid hcur
    exact finishSecret_guard cfg ev st lg v hv hvid hcur
  · intro hwf old hold hcur hne hall hex
    obtain ⟨tv, htv, htvid⟩ := hex
    have hscan : scanVersions ev.token ("")
        (st.versions.map fun w => (w.id, w.stages)) = .ok old.id := by
      apply scanVersions_unique ev.token old.id ("") _ hne
      · intro p hp hcp
        obtain ⟨w, hw, rfl⟩ := List.mem_map.mp hp
        exact hall w hw hcp
      · exact ⟨(old.id, old.stages), List.mem_map.mpr ⟨old, hold, rfl⟩, hcur⟩
    have hmove : st.versions.any (fun v => v.id == ev.token) = true :=
      List.any_eq_true.mpr ⟨tv, htv, by simp [htvid]⟩
    have hfrom : st.versions.any
        (fun v => v.id == old.id && v.stages.contains ("AWSCURRENT")) = true :=
      List.any_eq_true.mpr ⟨old, hold, by simp [hcur]⟩
    obtain ⟨stNew, hupd⟩ : ∃ stN,
        st.updateStage ("AWSCURRENT") ev.token old.id = .ok stN :=
      ⟨_, by unfold Store.updateStage; rw [if_pos hmove, if_pos hfrom]⟩
    have hcle : currentCount st ≤ 1 := by
      unfold currentCount
      have hmono : st.versions.countP (fun v => v.stages.contains ("AWSCURRENT")) ≤
          st.versions.countP (fun v => v.id == old.id) := by
        apply List.countP_mono_left
        intro a ha hpa
        simp only [beq_iff_eq]
        exact hall a ha (by simpa using hpa)
      have hcnt : st.versions.countP (fun v => v.id == old.id) =
          (st.versions.map (fun v => v.id)).count old.id := by
        rw [List.count_eq_countP, List.countP_map]; rfl
      have hle1 := List.nodup_iff_count_le_one.mp hwf old.id
      omega
    obtain ⟨hwf1, hcc1, hpoint1, hids1⟩ := updateStage_ok hwf hcle hupd
    have hfin1 : finishSecret cfg ev ⟨st, [], lg⟩ =
        (.ok (), ⟨stNew, [],
          .updateSecretVersionStage ev.secretARN ev.token old.id ::
          .describeSecret ev.secretARN :: lg⟩) := by
      unfold finishSecret
      simp [smDescribeSecret, smUpdateSecretVersionStage, takeFault, hscan, hupd]
    have htok1 : ev.token ∈ stNew.versions.map (fun v => v.id) := by
      rw [hids1]
      exact List.mem_map.mpr ⟨tv, htv, htvid⟩
    obtain ⟨v1, hv1, hid1⟩ := List.mem_map.mp htok1
    have hcur1 : ("AWSCURRENT") ∈ v1.stages := by
      have hb := hpoint1 v1 hv1
      have hb2 : v1.stages.contains ("AWSCURRENT") = true := by
        rw [hb]; simp [hid1]
      simpa using hb2
    have hfin2 := finishSecret_guard cfg ev stNew
      (.updateSecretVersionStage ev.secretARN ev.token old.id ::
       .describeSecret ev.secretARN :: lg) v1 hv1 hid1 hcur1
    rw [hfin1]
    exact ⟨rfl, by rw [hfin2], by rw [hfin2]⟩

theorem finishSecret_idempotency_witness :
    (finishSecret cfgW ⟨("arn"), ("T1"), ("finishSecret")⟩ ⟨storeWP, [], []⟩).1 =
      .ok () ∧
    (finishSecret cfgW ⟨("arn"), ("T1"), ("finishSecret")⟩
      (finishSecret cfgW ⟨("arn"), ("T1"), ("finishSecret")⟩
        ⟨storeWP, [], []⟩).2).1 = .ok () ∧
    (finishSecret cfgW ⟨("arn"), ("T1"), ("finishSecret")⟩
      (finishSecret cfgW ⟨("arn"), ("T1"), ("finishSecret")⟩
        ⟨storeWP, [], []⟩).2).2.store =
      (finishSecret cfgW ⟨("arn"), ("T1"), ("finishSecret")⟩
        ⟨storeWP, [], []⟩).2.store :=
  (finishSecret_idempotency cfgW ⟨("arn"), ("T1"), ("finishSecret")⟩ storeWP []).2
    (by unfold Store.wf; decide) ⟨("v0"), [("AWSCURRENT")], ("c0")⟩ (by decide)
    (by decide) (by decide) (by decide) (by decide)

/-- C3 counterexample: in a store holding a pending version for the
incoming token but no version labeled `AWSCURRENT`, the (token,
AWSPENDING) read would succeed, yet createSecret does not return success:
the initial `AWSCURRENT` read fails first and that NotFound error is
returned to the caller. -/
theorem createSecret_idem_cex :
    (storeWNoCur.getByVersionStage ("T1") ("AWSPENDING")).isSome = true ∧
    createSecret cfgW ⟨("arn"), ("T1"), ("createSecret")⟩ ⟨storeWNoCur, [], []⟩ =
      (.error (.notFound ("AWSCURRENT")), ⟨storeWNoCur, [],
        [.getSecretValue ("arn") none ("AWSCURRENT")]⟩) := by
  constructor
  · decide
  · rfl

/-- C3 (amended): provided the initial `AWSCURRENT` read succeeds, if a
version identified by the incoming token already carries `AWSPENDING` (the
(token, AWSPENDING) read succeeds), createSecret returns success
immediately with no `GenerateSecret` call and no store write — the log
gains exactly the two reads and the store is unchanged; consequently
calling createSecret twice with the same (secretId, token) writes the
generated pending version on the first call and the second call returns
success leaving the store unchanged. -/
theorem createSecret_idempotency (cfg : Config σ ω)
    (ev : SecretsmanagerTriggerPayload) (st : Store σ) (lg : List Call) :
    ((st.getByStage ("AWSCURRENT")).isSome = true →
     (st.getByVersionStage ev.token ("AWSPENDING")).isSome = true →
     createSecret cfg ev ⟨st, [], lg⟩ =
       (.ok (), ⟨st, [],
         .getSecretValue ev.secretARN (some ev.token) ("AWSPENDING") ::
         .getSecretValue ev.secretARN none ("AWSCURRENT") :: lg⟩)) ∧
    (∀ cv e e2 c, st.getByStage ("AWSCURRENT") = some cv →
     st.getByVersionStage ev.token ("AWSPENDING") = none →
     cfg.extractObj cv.secretString = .ok e →
     cfg.generate e = .ok e2 →
     cfg.serialiseObj e2 = .ok c →
     (createSecret cfg ev ⟨st, [], lg⟩).1 = .ok () ∧
     (createSecret cfg ev ⟨st, [], lg⟩).2.store = st.putPending ev.token c ∧
     (createSecret cfg ev ((createSecret cfg ev ⟨st, [], lg⟩).2)).1 = .ok () ∧
     (createSecret cfg ev ((createSecret cfg ev ⟨st, [], lg⟩).2)).2.store =
       (createSecret cfg ev ⟨st, [], lg⟩).2.store) := by
  constructor
  · intro h1 h2
    exact createSecret_guard cfg ev st lg h1 h2
  · intro cv e e2 c hcv hpend hex hgen hser
    have hw := createSecret_write cfg ev st lg cv e e2 c hcv hpend hex hgen hser
    have hsome : ((st.putPending ev.token c).getByStage ("AWSCURRENT")).isSome
        = true :=
      getByStage_putPending_some st ev.token c (by rw [Store.getByStage] at hcv ⊢; rw [hcv]; rfl)
    obtain ⟨w, hfind, hwid, hwc⟩ := getByVersionStage_putPending st ev.token c
    have hpend2 : ((st.putPending ev.token c).getByVersionStage ev.token
        ("AWSPENDING")).isSome = true := by rw [hfind]; rfl
    have hg2 := createSecret_guard cfg ev (st.putPending ev.token c)
      (.putSecretValue ev.secretARN ev.token :: .generateSecret ::
       .getSecretValue ev.secretARN (some ev.token) ("AWSPENDING") ::
       .getSecretValue ev.secretARN none ("AWSCURRENT") :: lg) hsome hpend2
    rw [hw]
    exact ⟨rfl, rfl, by rw [hg2], by rw [hg2]⟩

theorem createSecret_idempotency_witness :
    createSecret cfgW ⟨("arn"), ("T1"), ("createSecret")⟩ ⟨storeWP, [], []⟩ =
      (.ok (), ⟨storeWP, [],
        [.getSecretValue ("arn") (some ("T1")) ("AWSPENDING"),
         .getSecretValue ("arn") none ("AWSCURRENT")]⟩) ∧
    ((createSecret cfgW ⟨("arn"), ("T1"), ("createSecret")⟩ ⟨storeW, [], []⟩).1 =
       .ok () ∧
     (createSecret cfgW ⟨("arn"), ("T1"), ("createSecret")⟩
       ⟨storeW, [], []⟩).2.store = storeW.putPending ("T1") ("c0!") ∧
     (createSecret cfgW ⟨("arn"), ("T1"), ("createSecret")⟩
       ((createSecret cfgW ⟨("arn"), ("T1"), ("createSecret")⟩
         ⟨storeW, [], []⟩).2)).1 = .ok () ∧
     (createSecret cfgW ⟨("arn"), ("T1"), ("createSecret")⟩
       ((createSecret cfgW ⟨("arn"), ("T1"), ("createSecret")⟩
         ⟨storeW, [], []⟩).2)).2.store =
       (createSecret cfgW ⟨("arn"), ("T1"), ("createSecret")⟩
         ⟨storeW, [], []⟩).2.store) :=
  ⟨(createSecret_idempotency cfgW ⟨("arn"), ("T1"), ("createSecret")⟩ storeWP []).1
     (by decide) (by decide),
   (createSecret_idempotency cfgW ⟨("arn"), ("T1"), ("createSecret")⟩ storeW []).2
     ⟨("v0"), [("AWSCURRENT")], ("c0")⟩ ("c0") ("c0!") ("c0!")
     (by decide) (by decide) rfl rfl rfl⟩

/-- C4 counterexample: with a pending version for the token present in the
store, a transient (non-NotFound) failure is injected into the (token,
AWSPENDING) read; the claim requires such a failure to be propagated as the
step's failure, but createSecret instead proceeds to generate and write a
new pending version and returns success. -/
theorem createSecret_errorKind_cex :
    createSecret cfgW ⟨("arn"), ("T1"), ("createSecret")⟩
        ⟨storeWP, [false, true], []⟩ =
      (.ok (), ⟨storeWP.putPending ("T1") ("c0!"), [],
        [.putSecretValue ("arn") ("T1"), .generateSecret,
         .getSecretValue ("arn") (some ("T1")) ("AWSPENDING"),
         .getSecretValue ("arn") none ("AWSCURRENT")]⟩) := by
  decide

/-- C4 (amended): in createSecret, any failure of the pending read at
(token, AWSPENDING) — NotFound or a transient client failure — leads to
generating and writing a new pending version; the read's failure is never
propagated to the caller (only a successful read short-circuits the
step). -/
theorem createSecret_pendingReadFailure (cfg : Config σ ω)
    (ev : SecretsmanagerTriggerPayload) (st : Store σ) (f2 : Bool)
    (cv : SVersion σ) (e e2 : ω) (c : σ)
    (hcv : st.getByStage ("AWSCURRENT") = some cv)
    (hfail : f2 = true ∨ st.getByVersionStage ev.token ("AWSPENDING") = none)
    (hex : cfg.extractObj cv.secretString = .ok e)
    (hgen : cfg.generate e = .ok e2)
    (hser : cfg.serialiseObj e2 = .ok c) :
    createSecret cfg ev ⟨st, [false, f2], []⟩ =
      (.ok (), ⟨st.putPending ev.token c, [],
        [.putSecretValue ev.secretARN ev.token, .generateSecret,
         .getSecretValue ev.secretARN (some ev.token) ("AWSPENDING"),
         .getSecretValue ev.secretARN none ("AWSCURRENT")]⟩) := by
  rcases hfail with rfl | hnone
  · unfold createSecret
    simp [smGetSecretValue, smPutSecretValue, takeFault, hcv, hex, hgen, hser]
  · cases f2
    · unfold createSecret
      simp [smGetSecretValue, smPutSecretValue, takeFault, hcv, hnone, hex, hgen, hser]
    · unfold createSecret
      simp [smGetSecretValue, smPutSecretValue, takeFault, hcv, hex, hgen, hser]

theorem createSecret_pendingReadFailure_witness :
    createSecret cfgW ⟨("arn"), ("T1"), ("createSecret")⟩
        ⟨storeWP, [false, true], []⟩ =
      (.ok (), ⟨storeWP.putPending ("T1") ("c0!"), [],
        [.putSecretValue ("arn") ("T1"), .generateSecret,
         .getSecretValue ("arn") (some ("T1")) ("AWSPENDING"),
         .getSecretValue ("arn") none ("AWSCURRENT")]⟩) :=
  createSecret_pendingReadFailure cfgW ⟨("arn"), ("T1"), ("createSecret")⟩
    storeWP true ⟨("v0"), [("AWSCURRENT")], ("c0")⟩ ("c0") ("c0!") ("c0!")
    (by decide) (.inl rfl) rfl rfl rfl

/-- The deployment configuration whose secret object is a `SecretUser`:
extraction and serialisation go through the JSON model, generation is the
deployment's database client. -/
def secretUserConfig (gen : SecretUser → Except GoErr SecretUser) :
    Config String SecretUser :=
  { extractObj := extractSecretUser
    generate := gen
    serialiseObj := serialiseSecretUser }

/-- C5: generation freshness of createSecret's happy path: in a store
holding an `AWSCURRENT` envelope and no pending version for the token,
when `GenerateSecret` succeeds and produces material whose password
differs from its input while the non-generated fields are unchanged,
createSecret succeeds and writes a version identified by the token,
labeled `AWSPENDING`, whose envelope deserialises to exactly the generated
material: its password differs from the `AWSCURRENT` envelope it was
derived from and its non-generated fields are identical. -/
theorem createSecret_freshness (gen : SecretUser → Except GoErr SecretUser)
    (ev : SecretsmanagerTriggerPayload) (st : Store String) (lg : List Call)
    (cv : SVersion String) (e e2 : SecretUser)
    (hcv : st.getByStage ("AWSCURRENT") = some cv)
    (hpend : st.getByVersionStage ev.token ("AWSPENDING") = none)
    (hex : extractSecretUser cv.secretString = .ok e)
    (hgen : gen e = .ok e2)
    (hpw : e2.password ≠ e.password)
    (hu : e2.user = e.user) (hh : e2.host = e.host)
    (hp : e2.projectID = e.projectID) (hb : e2.branchID = e.branchID)
    (hd : e2.databaseName = e.databaseName) :
    (createSecret (secretUserConfig gen) ev ⟨st, [], lg⟩).1 = .ok () ∧
    ∃ w, (createSecret (secretUserConfig gen) ev
            ⟨st, [], lg⟩).2.store.getByVersionStage ev.token ("AWSPENDING") =
           some w ∧
         w.id = ev.token ∧
         extractSecretUser w.secretString = .ok e2 ∧
         e2.password ≠ e.password ∧ e2.user = e.user ∧ e2.host = e.host ∧
         e2.projectID = e.projectID ∧ e2.branchID = e.branchID ∧
         e2.databaseName = e.databaseName := by
  have hser : serialiseSecretUser e2 =
      .ok (String.mk (renderJson (secretUserToJson e2))) := rfl
  have hw := createSecret_write (secretUserConfig gen) ev st lg cv e e2 _
    hcv hpend hex hgen hser
  obtain ⟨w, hfind, hwid, hwc⟩ := getByVersionStage_putPending st ev.token
    (String.mk (renderJson (secretUserToJson e2)))
  rw [hw]
  refine ⟨rfl, w, ?_, hwid, ?_, hpw, hu, hh, hp, hb, hd⟩
  · simpa using hfind
  · rw [hwc]
    exact extractSecretUser_serialise e2

/-- A concrete `SecretUser` envelope used in witnesses (field values follow
the repository's test fixture). -/
def userW : SecretUser :=
  ⟨("bar"), ("P0"), ("dev"), ("baz"), ("br-foo"), ("foo")⟩

/-- The envelope `userW` after generation: same fields, new password. -/
def userW2 : SecretUser := { userW with password := ("P1") }

/-- A generator used in witnesses: replaces the password by `P1`. -/
def genW : SecretUser → Except GoErr SecretUser :=
  fun u => .ok { u with password := ("P1") }

/-- A store whose `AWSCURRENT` version holds the marshalled `userW`. -/
def storeWU : Store String :=
  ⟨[⟨("v0"), [("AWSCURRENT")],
    String.mk (renderJson (secretUserToJson userW))⟩]⟩

theorem createSecret_freshness_witness :
    (createSecret (secretUserConfig genW) ⟨("arn"), ("T1"), ("createSecret")⟩
      ⟨storeWU, [], []⟩).1 = .ok () ∧
    ∃ w, (createSecret (secretUserConfig genW) ⟨("arn"), ("T1"), ("createSecret")⟩
            ⟨storeWU, [], []⟩).2.store.getByVersionStage ("T1") ("AWSPENDING") =
           some w ∧
         w.id = ("T1") ∧
         extractSecretUser w.secretString = .ok userW2 ∧
         userW2.password ≠ userW.password ∧ userW2.user = userW.user ∧
         userW2.host = userW.host ∧ userW2.projectID = userW.projectID ∧
         userW2.branchID = userW.branchID ∧
         userW2.databaseName = userW.databaseName :=
  createSecret_freshness genW ⟨("arn"), ("T1"), ("createSecret")⟩ storeWU []
    ⟨("v0"), [("AWSCURRENT")], String.mk (renderJson (secretUserToJson userW))⟩
    userW userW2 rfl rfl (extractSecretUser_serialise userW) rfl (by decide)
    rfl rfl rfl rfl rfl

/-- C10: envelope serialization round-trip: for every secret value on which
JSON marshalling succeeds, serialiseSecret returns, without error, exactly
the marshalled JSON string (the unsafe byte-slice-to-string cast is
content-preserving), and applying extractSecretObject to a store output
carrying that string reconstructs a value equal to the original;
serialiseSecret returns an error exactly when JSON marshalling of the
secret fails. -/
theorem serialiseSecret_roundtrip (gv : GoValue) :
    (∀ j, gv = GoValue.json j →
       serialiseSecret gv = .ok (String.mk (renderJson j)) ∧
       extractSecretObject { secretString := String.mk (renderJson j) } =
         .ok j) ∧
    (∀ e, serialiseSecret gv = .error e ↔ goJsonMarshal gv = .error e) := by
  constructor
  · rintro j rfl
    refine ⟨rfl, ?_⟩
    unfold extractSecretObject
    rw [parseJsonTop_render]
  · intro e
    cases gv <;> simp [serialiseSecret, goJsonMarshal]

theorem serialiseSecret_roundtrip_witness :
    serialiseSecret (.json (.obj [(("password"), .str ("P0"))])) =
      .ok (String.mk (renderJson (.obj [(("password"), .str ("P0"))]))) ∧
    extractSecretObject
        ⟨String.mk (renderJson (.obj [(("password"), .str ("P0"))]))⟩ =
      .ok (.obj [(("password"), .str ("P0"))]) :=
  (serialiseSecret_roundtrip (.json (.obj [(("password"), .str ("P0"))]))).1
    (.obj [(("password"), .str ("P0"))]) rfl
